import Mathlib

/-
Verification development for the aichestra orchestrator
(src/orchestrator/app/orchestrator.py).

The Python code is shallowly embedded: pure routing / scoring / planning
logic becomes Lean functions over explicit state; the remote transport
(HTTP calls of the A2A client) is passed in as an explicit oracle
argument; Python floats are modelled as rationals; Python dicts
(insertion ordered) are modelled as association lists.
-/

/- Rational arithmetic is evaluated inside concrete witnesses, so the
four core operations are made unfoldable for decision procedures. -/
attribute [local semireducible] Rat.mul Rat.add Rat.sub Rat.inv

/-! ## String helpers (Python str primitives used by the orchestrator) -/

/-- Python str.lower of a string, as a character list (ASCII model). -/
def lowerChars (s : String) : List Char := s.toList.map Char.toLower

/-- Python str.lower returning a string. -/
def lowerStr (s : String) : String := String.mk (lowerChars s)

/-- Python substring containment: needle in haystack. -/
def strIn (needle haystack : List Char) : Bool :=
  (List.range (haystack.length + 1)).any fun i => needle.isPrefixOf (haystack.drop i)

/-- Maximal runs of characters satisfying p, in order (helper for
str.split and for the word regex). -/
def runsBy (p : Char → Bool) : List Char → List Char → List (List Char)
  | [], acc => if acc.isEmpty then [] else [acc.reverse]
  | c :: cs, acc =>
    if p c then runsBy p cs (c :: acc)
    else if acc.isEmpty then runsBy p cs [] else acc.reverse :: runsBy p cs []

/-- A word character of the regex class backslash-w (ASCII model). -/
def isWordChar (c : Char) : Bool := c.isAlphanum || c == '_'

/-- Python re.findall of three-or-longer word runs: maximal word-character
runs of length at least 3 (the pattern used throughout the indexer). -/
def findWords3 (s : List Char) : List String :=
  ((runsBy isWordChar s []).filter fun w => 3 ≤ w.length).map String.mk

/-- Python str.split() with no separator: maximal non-whitespace runs. -/
def pySplit (s : String) : List String :=
  (runsBy (fun c => !c.isWhitespace) s.toList []).map String.mk

/-- Python dict lookup d.get(k) over an association list. -/
def alookup {α : Type} : List (String × α) → String → Option α
  | [], _ => none
  | (k, v) :: rest, w => if w = k then some v else alookup rest w

/-! ## Data model: AgentSkill / AgentCard / Registry -/

/-- One skill of an agent card (a2a.types.AgentSkill fields the
orchestrator reads: name, description, tags). -/
structure AgentSkill where
  name : String
  description : String
  tags : List String
deriving DecidableEq

/-- An agent card (a2a.types.AgentCard fields the orchestrator reads:
name, description, url, skills). -/
structure AgentCard where
  name : String
  description : String
  url : String
  skills : List AgentSkill
deriving DecidableEq

/-- The orchestrator agent registry self.agents: a Python dict from agent
id to card, modelled as an insertion-ordered association list. -/
abbrev Registry := List (String × AgentCard)

/-! ## Request scorer (_calculate_agent_score / _skill_matches_request) -/

/-- Embedding of _skill_matches_request: some keyword of the skill (from
the dynamically built self.skill_keywords, here an explicit argument) is
a substring of the lowercased request. -/
def skill_matches_request (skillKeywords : String → List String) (skillName request : String) : Bool :=
  (skillKeywords skillName).any fun kw => strIn kw.toList (lowerChars request)

/-- Embedding of _calculate_agent_score.  The two Python accumulation
loops (+1.0 per matching skill tag, +1.5 per matching skill) are
expressed as a count and a filter; matched skill names are collected in
order. -/
def calculate_agent_score (skillKeywords : String → List String) (request : String)
    (card : AgentCard) : ℚ × List String :=
  let requestLower := lowerChars request
  let keywords := (card.skills.map (fun s => s.tags)).flatten
  let tagScore : ℚ := keywords.countP fun kw => strIn (lowerChars kw) requestLower
  let matched := card.skills.filter fun s => skill_matches_request skillKeywords s.name request
  (tagScore + (3 / 2) * matched.length, matched.map fun s => s.name)

/-! ## Single-agent analysis (_analyze_request) -/

/-- The best-agent fold of _analyze_request: best score starts at 0.0 and
an agent replaces the current best only on a strictly greater score. -/
def bestAgentFold (skillKeywords : String → List String) (agents : Registry)
    (request : String) : Option String × ℚ :=
  agents.foldl
    (fun best p =>
      let score := (calculate_agent_score skillKeywords request p.2).1
      if best.2 < score then (some p.1, score) else best)
    (none, 0)

/-- Embedding of the selection and confidence computation of
_analyze_request: none models the empty-registry error state; otherwise
the selected agent id and the confidence min(best_score / 5.0, 1.0) are
returned, where a 0.3 best score is substituted when no agent scored
above zero. -/
def analyze_request (skillKeywords : String → List String) (agents : Registry)
    (request : String) : Option (String × ℚ) :=
  let folded := bestAgentFold skillKeywords agents request
  let pick : Option (String × ℚ) :=
    match folded.1 with
    | some a => some (a, folded.2)
    | none =>
      match agents with
      | [] => none
      | p :: _ => some (p.1, 3 / 10)
  pick.map fun q => (q.1, min (q.2 / 5) 1)

/-! ## Capability indexer (_update_capability_registry) -/

/-- The capability registry self.capability_registry: capability keyword
to list of agent ids, as an insertion-ordered association list. -/
abbrev CapIndex := List (String × List String)

/-- Add one element to an ordered Python-set model (no duplicates,
first-insertion order kept). -/
def addCap (caps : List String) (c : String) : List String :=
  if c ∈ caps then caps else caps ++ [c]

/-- Add several elements to an ordered Python-set model. -/
def addCaps (caps : List String) (cs : List String) : List String :=
  cs.foldl addCap caps

/-- The stop-word set filtering skill-description words. -/
def descStopwords : List String :=
  ["the", "and", "for", "with", "this", "that", "can", "will"]

/-- Map a separator to a space (the replace calls on skill names). -/
def sepToSpace (c : Char) : Char := if c = '_' ∨ c = '-' then ' ' else c

/-- Capabilities contributed by one skill in _update_capability_registry:
the normalized skill name, its words of length above 2, tags of length
above 2 (lowercased), and the first 10 description words not in the
stop-word set. -/
def skillCapabilities (caps : List String) (s : AgentSkill) : List String :=
  let skillCapability := String.mk ((lowerChars s.name).map sepToSpace)
  let caps := addCap caps skillCapability
  let caps := addCaps caps ((pySplit skillCapability).filter fun w => 2 < w.length)
  let caps :=
    if s.tags ≠ [] then
      addCaps caps ((s.tags.filter fun t => 2 < t.length).map lowerStr)
    else caps
  if s.description ≠ "" then
    addCaps caps
      (((findWords3 (lowerChars s.description)).take 10).filter fun w => w ∉ descStopwords)
  else caps

/-- The ordered set agent_capabilities built for one agent card: skill
contributions, then agent name words, then the first 5 agent description
words. -/
def agentCapabilities (card : AgentCard) : List String :=
  let caps := card.skills.foldl skillCapabilities []
  let caps :=
    if card.name ≠ "" then addCaps caps (findWords3 (lowerChars card.name)) else caps
  if card.description ≠ "" then
    addCaps caps ((findWords3 (lowerChars card.description)).take 5)
  else caps

/-- Record one capability for one agent in the index (append the agent id
if not yet present for that capability). -/
def indexAdd : CapIndex → String → String → CapIndex
  | [], cap, agentId => [(cap, [agentId])]
  | (c, l) :: rest, cap, agentId =>
    if c = cap then (c, if agentId ∈ l then l else l ++ [agentId]) :: rest
    else (c, l) :: indexAdd rest cap agentId

/-- Register all capabilities of one agent. -/
def registerAgentCapabilities (idx : CapIndex) (agentId : String) (card : AgentCard) : CapIndex :=
  (agentCapabilities card).foldl (fun i c => indexAdd i c agentId) idx

/-- Python del on the index: drop the entry with the given key. -/
def indexErase : CapIndex → String → CapIndex
  | [], _ => []
  | (c, l) :: rest, w => if c = w then indexErase rest w else (c, l) :: indexErase rest w

/-- The fixed stoplist common_words of _update_capability_registry. -/
def commonWords : List String :=
  ["agent", "service", "system", "manage", "handle", "process", "operation", "data"]

/-- One iteration of the pruning loop: the stoplist word is deleted only
when it is in the index and its agent list is at least as long as the
agent count. -/
def pruneStep (agentsCount : Nat) (i : CapIndex) (w : String) : CapIndex :=
  match alookup i w with
  | some l => if agentsCount ≤ l.length then indexErase i w else i
  | none => i

/-- The pruning loop over the eight stoplist words. -/
def pruneCommon (agentsCount : Nat) (idx : CapIndex) : CapIndex :=
  commonWords.foldl (pruneStep agentsCount) idx

/-- The index as built from all agents, before pruning. -/
def builtCapabilityIndex (agents : Registry) : CapIndex :=
  agents.foldl (fun idx p => registerAgentCapabilities idx p.1 p.2) []

/-- Embedding of _update_capability_registry: full rebuild from the
registry, then the stoplist pruning pass. -/
def update_capability_registry (agents : Registry) : CapIndex :=
  pruneCommon agents.length (builtCapabilityIndex agents)

/-! ## Registry operations register_agent / unregister_agent -/

/-- Python dict assignment self.agents[k] = card: replace in place if the
key exists, else append. -/
def dictInsertCard (agents : Registry) (k : String) (card : AgentCard) : Registry :=
  if agents.any (fun p => p.1 == k) then
    agents.map fun p => if p.1 == k then (k, card) else p
  else agents ++ [(k, card)]

/-- Result of register_agent; the message strings of the Python dict are
carried as their variable components. -/
inductive RegisterResult
  | ok (agentId agentName endpoint : String)
  | fetchFailed (endpoint : String)
deriving DecidableEq

/-- Embedding of register_agent: the remote card fetch is an explicit
argument (none models both a None result and a raised fetch error, which
the Python fetch helper converts to None). -/
def register_agent (agents : Registry) (endpoint : String) (fetched : Option AgentCard) :
    RegisterResult × Registry :=
  match fetched with
  | some card =>
    (RegisterResult.ok card.name card.name endpoint, dictInsertCard agents card.name card)
  | none => (RegisterResult.fetchFailed endpoint, agents)

/-- The per-agent identifier test of unregister_agent, in source order:
exact id, exact endpoint, case-insensitive name, identifier contained in
the endpoint. -/
def agentIdentifierMatches (ident : String) (p : String × AgentCard) : Bool :=
  p.1 == ident || p.2.url == ident ||
    lowerChars p.2.name == lowerChars ident || strIn ident.toList p.2.url.toList

/-- The resolution loop of unregister_agent: first agent, in registration
order, matched by any of the four criteria. -/
def resolveAgent (agents : Registry) (ident : String) : Option (String × AgentCard) :=
  agents.find? (agentIdentifierMatches ident)

/-- Python del self.agents[k]. -/
def dictEraseCard (agents : Registry) (k : String) : Registry :=
  agents.filter fun p => p.1 != k

/-- Result of unregister_agent; the not-found error message is carried as
its components (the identifier and the listed known agent ids). -/
inductive UnregisterResult
  | ok (agentId agentName endpoint : String)
  | notFound (ident : String) (available : List String)
deriving DecidableEq

/-- Embedding of unregister_agent. -/
def unregister_agent (agents : Registry) (ident : String) : UnregisterResult × Registry :=
  match resolveAgent agents ident with
  | some p => (UnregisterResult.ok p.1 p.2.name p.2.url, dictEraseCard agents p.1)
  | none => (UnregisterResult.notFound ident (agents.map fun p => p.1), agents)

/-! ## Planner: capability scoring (_score_capability_match) -/

/-- The generic_terms stop-word set of _score_capability_match. -/
def genericTerms : List String :=
  ["what", "is", "the", "and", "for", "with", "can", "will", "get", "set", "do", "make", "use"]

/-- The operator symbols checked against the request. -/
def opSymbols : List String := ["+", "-", "*", "/", "=", "<", ">"]

/-- The operation-related capability terms boosted by a symbol request. -/
def opTerms : List String := ["operation", "calculation", "compute", "process"]

/-- Embedding of _score_capability_match over an already lowercased
request (the Python function receives request_lower). -/
def score_capability_match (requestLower capability : String) : ℚ :=
  let rl := requestLower.toList
  let capabilityLower := lowerChars capability
  if String.mk capabilityLower ∈ genericTerms then 1 / 10
  else
    let score : ℚ := if capabilityLower.length = 1 && strIn capabilityLower rl then 3 else 0
    let score :=
      if strIn capabilityLower rl then
        score + 2 + min ((capabilityLower.length : ℚ) / 10) 1
      else score
    let score :=
      (pySplit (String.mk capabilityLower)).foldl
        (fun sc w =>
          if 2 < w.length && !(genericTerms.contains w) && strIn w.toList rl then
            sc + (if 4 < w.length then 3 / 2 else 1)
          else sc)
        score
    let score :=
      (pySplit requestLower).foldl
        (fun sc w =>
          if 3 < w.length && !(genericTerms.contains w) && strIn w.toList capabilityLower then
            sc + 3 / 10
          else sc)
        score
    if (opSymbols.any fun s => strIn s.toList rl) &&
        (opTerms.any fun t => strIn t.toList capabilityLower) then
      score + 1
    else score

/-! ## Planner: multi-step detection (_is_multi_step_request) -/

/-- The explicit connective phrases of _is_multi_step_request. -/
def multiStepIndicators : List String :=
  ["and then", "then", "after", "followed by", "next", "and also", "combined with", "together with"]

/-- Some connective phrase is contained in the lowercased request. -/
def hasExplicitConnectors (requestLower : String) : Bool :=
  multiStepIndicators.any fun ind => strIn ind.toList requestLower.toList

/-- Python self.capability_registry.get(c, []). -/
def regLookup (capReg : CapIndex) (c : String) : List String :=
  (alookup capReg c).getD []

/-- Non-empty intersection of two agent-id sets (modelled on lists). -/
def listsIntersect (l1 l2 : List String) : Bool :=
  l1.any fun x => l2.contains x

/-- The cross-domain nested scan of _is_multi_step_request: some pair of
positions among the first five scored capabilities has a primary score
above 1.0, a secondary score above 0.5, and disjoint agent sets.  The
Python double break is pure early exit, so the loops are an existence
check. -/
def crossDomainOperation (capReg : CapIndex) (sorted : List (String × ℚ)) : Bool :=
  if 2 ≤ sorted.length then
    let m := min 5 sorted.length
    (List.range m).any fun i =>
      (List.range' (i + 1) (m - (i + 1))).any fun j =>
        match sorted.get? i, sorted.get? j with
        | some (c1, s1), some (c2, s2) =>
          decide (1 < s1) && decide (1 / 2 < s2) &&
            !(listsIntersect (regLookup capReg c1) (regLookup capReg c2))
        | _, _ => false
  else false

/-- Embedding of _is_multi_step_request. -/
def is_multi_step_request (capReg : CapIndex) (requestLower : String)
    (sorted : List (String × ℚ)) : Bool :=
  hasExplicitConnectors requestLower || crossDomainOperation capReg sorted

/-! ## Planner: decomposition (_generic_pattern_matching) -/

/-- One decomposed unit of work (the TaskRequirement dataclass, as the
dicts produced by _generic_pattern_matching). -/
structure TaskReq where
  capabilityType : String
  description : String
  inputFormat : String
  outputFormat : String
  priority : ℚ
deriving DecidableEq

/-- The single-capability requirement dict produced on the non-multi-step
paths. -/
def singleReq (cap request : String) : TaskReq :=
  { capabilityType := cap
    description := request
    inputFormat := "user request"
    outputFormat := "processed response"
    priority := 1 }

/-- The scored-and-sorted capability list: capabilities with a positive
score, sorted by descending score (Python sorted is stable; ties keep
the insertion order of the capability dict). -/
def sortedCapabilitiesOf (requestLower : String) (available : List String) :
    List (String × ℚ) :=
  ((available.map fun c => (c, score_capability_match requestLower c)).filter
      fun p => decide (0 < p.2)).mergeSort
    fun a b => decide (b.2 ≤ a.2)

/-- The first selection of the multi-step branch: the top capability when
its score is above 1.0, together with the used-agent set (empty when the
capability is not in the index, as registry.get would be guarded). -/
def selectFirstCap (capReg : CapIndex) (sorted : List (String × ℚ)) :
    List String × List String :=
  match sorted with
  | [] => ([], [])
  | (c1, s1) :: _ => if 1 < s1 then ([c1], regLookup capReg c1) else ([], [])

/-- The second-selection scan of the multi-step branch: the first later
capability with score above 0.5, present in the index, whose agents are
disjoint from the used set (the Python loop breaks only on success). -/
def selectSecondCap (capReg : CapIndex) (used : List String) :
    List (String × ℚ) → Option String
  | [] => none
  | (c, s) :: rest =>
    if 1 / 2 < s then
      match alookup capReg c with
      | some capAgents =>
        if !(listsIntersect capAgents used) then some c
        else selectSecondCap capReg used rest
      | none => selectSecondCap capReg used rest
    else selectSecondCap capReg used rest

/-- One execution-step requirement dict of the multi-step branch,
at position i. -/
def buildStep (request : String) (i : Nat) (capability : String) : TaskReq :=
  { capabilityType := capability
    description :=
      if i = 0 then
        "Process the " ++ capability ++ " components from this request: " ++ request
      else
        "Use the previous results to handle the " ++ capability ++
          " aspects and complete the request"
    inputFormat := if 0 < i then "previous step output" else "user request"
    outputFormat := capability ++ " result"
    priority := 1 - (i : ℚ) * (1 / 10) }

/-- Embedding of _generic_pattern_matching: score and sort the available
capabilities, detect multi-step, select at most one primary and one
cross-domain secondary capability, and emit the requirement dicts. -/
def generic_pattern_matching (capReg : CapIndex) (request : String)
    (available : List String) : List TaskReq :=
  let requestLower := lowerStr request
  let sorted := sortedCapabilitiesOf requestLower available
  match sorted with
  | [] => [singleReq (available.headD "general") request]
  | (c1, _) :: restSorted =>
    if is_multi_step_request capReg requestLower sorted then
      let firstSel := selectFirstCap capReg sorted
      let selected := firstSel.1 ++ (selectSecondCap capReg firstSel.2 restSorted).toList
      if selected.length ≤ 1 then [singleReq c1 request]
      else selected.enum.map fun p => buildStep request p.1 p.2
    else [singleReq c1 request]

/-! ## Execution engine (_execute_current_step / _should_continue_execution) -/

/-- One entry of the execution plan (the dicts built by
_create_execution_plan). -/
structure PlanStep where
  stepId : String
  agentId : String
  taskDescription : String
  inputDependencies : List String
  outputKey : String
deriving DecidableEq

/-- The MultiAgentRouterState fields the execution loop reads and writes
(metadata entries are the per-step records: index, agent name, task,
result). -/
structure MultiAgentState where
  request : String
  executionPlan : List PlanStep
  currentStep : Nat
  intermediateResults : List (String × String)
  error : String
  metadata : List (Nat × String × String × String)
deriving DecidableEq

/-- Python dict assignment on intermediate_results. -/
def dictInsertStr : List (String × String) → String → String → List (String × String)
  | [], k, v => [(k, v)]
  | (k0, v0) :: rest, k, v =>
    if k0 = k then (k, v) :: rest else (k0, v0) :: dictInsertStr rest k v

/-- Embedding of _build_task_with_dependencies. -/
def build_task_with_dependencies (taskDescription : String) (dependencies : List String)
    (intermediateResults : List (String × String)) (originalRequest : String) : String :=
  if dependencies = [] ∨ intermediateResults = [] then
    "Original request: " ++ originalRequest ++ "\nTask: " ++ taskDescription
  else
    let dependencyContext :=
      dependencies.filterMap fun dep =>
        (alookup intermediateResults dep).map fun v => dep ++ ": " ++ v
    if dependencyContext ≠ [] then
      "Original request: " ++ originalRequest ++ "\nPrevious results:\n" ++
        String.intercalate "\n" dependencyContext ++ "\n\nYour task: " ++ taskDescription
    else
      "Original request: " ++ originalRequest ++ "\nTask: " ++ taskDescription

/-- Embedding of _execute_current_step.  The remote call
_forward_request_to_agent is the explicit forward oracle (endpoint and
full task text to result or raised-exception text); a failed agent-id
dict lookup raises a KeyError, modelled by its message text. -/
def execute_current_step (agents : Registry)
    (forward : String → String → Except String String)
    (st : MultiAgentState) : MultiAgentState :=
  let idx := st.currentStep
  if h : idx < st.executionPlan.length then
    let step := st.executionPlan.get ⟨idx, h⟩
    let fullTask :=
      build_task_with_dependencies step.taskDescription step.inputDependencies
        st.intermediateResults st.request
    match alookup agents step.agentId with
    | none =>
      { st with error := "Step " ++ toString idx ++ " failed: KeyError " ++ step.agentId }
    | some card =>
      match forward card.url fullTask with
      | Except.ok result =>
        { st with
          intermediateResults := dictInsertStr st.intermediateResults step.outputKey result
          currentStep := st.currentStep + 1
          metadata := st.metadata ++ [(idx, card.name, step.taskDescription, result)] }
      | Except.error e =>
        { st with error := "Step " ++ toString idx ++ " failed: " ++ e }
  else st

/-- Embedding of _should_continue_execution (a Python empty string is
falsy, so the error test is non-emptiness). -/
def should_continue_execution (st : MultiAgentState) : String :=
  if st.error ≠ "" then "finish"
  else if st.executionPlan.length ≤ st.currentStep then "finish"
  else "continue"

/-- The conditional-edge loop of the multi-agent workflow around
execute, instrumented with the list of step indices at which an
execution tick ran; fuel bounds the recursion. -/
def runPlanAux (agents : Registry) (forward : String → String → Except String String) :
    Nat → MultiAgentState → MultiAgentState × List Nat
  | 0, st => (st, [])
  | fuel + 1, st =>
    if should_continue_execution st = "continue" then
      let st' := execute_current_step agents forward st
      let rest := runPlanAux agents forward fuel st'
      (rest.1, st.currentStep :: rest.2)
    else (st, [])

/-- Run the execution loop to completion (plan length plus one ticks
always suffice: every tick either advances the cursor or sets the error
field). -/
def runPlan (agents : Registry) (forward : String → String → Except String String)
    (st : MultiAgentState) : MultiAgentState × List Nat :=
  runPlanAux agents forward (st.executionPlan.length + 1) st

/-! ## Polling loop of _forward_request_to_agent -/

/-- One content part as the poll handler reads it: part.get of kind and
of text (none models a missing text key). -/
structure MsgPart where
  kind : String
  text : Option String
deriving DecidableEq

/-- The task data one poll returns: status.state, the parts of each
artifact, and the parts of the status message (empty when absent). -/
structure TaskSnapshot where
  state : Option String
  artifacts : List (List MsgPart)
  statusMessageParts : List MsgPart
deriving DecidableEq

/-- One tasks/get reply: noResult models a missing or falsy result
field. -/
inductive PollReply
  | noResult
  | result (snap : TaskSnapshot)
deriving DecidableEq

/-- First text part of a part list, with the Python defaults applied. -/
def firstTextPart (parts : List MsgPart) (dflt : String) : Option String :=
  (parts.find? fun p => p.kind == "text").map fun p => p.text.getD dflt

/-- The completed-state handler: first text part of the first artifact
holding one, else the no-response-text message. -/
def completedText (snap : TaskSnapshot) : String :=
  ((snap.artifacts.filterMap fun parts => firstTextPart parts "No text in response").headD
    "Task completed but no response text found")

/-- The input-required-state handler. -/
def inputRequiredText (snap : TaskSnapshot) : String :=
  match firstTextPart snap.statusMessageParts "No text in input-required response" with
  | some t => t
  | none => "Agent requires input but no message provided"

/-- One poll iteration body: some t is an early return with text t, none
continues the loop. -/
def pollStep (reply : PollReply) : Option String :=
  match reply with
  | PollReply.noResult => none
  | PollReply.result snap =>
    if snap.state == some "completed" then some (completedText snap)
    else if snap.state == some "failed" then some "Agent task failed"
    else if snap.state == some "input-required" then some (inputRequiredText snap)
    else none

/-- The polling for-loop from a given attempt number with a remaining
attempt budget: the early-return text if any, and the number of polls
performed. -/
def pollFrom (oracle : Nat → PollReply) (attempt : Nat) :
    Nat → Option String × Nat
  | 0 => (none, 0)
  | r + 1 =>
    match pollStep (oracle attempt) with
    | some s => (some s, 1)
    | none =>
      let rest := pollFrom oracle (attempt + 1) r
      (rest.1, rest.2 + 1)

/-- The attempt bound of the Python for-loop (range(30)). -/
def pollAttempts : Nat := 30

/-- The polling phase of _forward_request_to_agent once message/send has
returned a task: up to 30 polls, and the timeout message after the loop
is exhausted. -/
def pollForCompletion (oracle : Nat → PollReply) : String × Nat :=
  let r := pollFrom oracle 0 pollAttempts
  (r.1.getD "Task did not complete within timeout", r.2)

/-- The value _forward_request_to_agent hands back on this path: the poll
outcome is returned as a normal string, a timeout or a remote task
failure included (no exception is raised for them). -/
def forwardPollOutcome (oracle : Nat → PollReply) : Except String String :=
  Except.ok (pollForCompletion oracle).1

/-! ## Helper lemmas about the best-agent fold -/

/-- The best score tracked by the fold never drops below its starting
value, in particular never below 0. -/
theorem bestAgentFold_go_nonneg (sk : String → List String) (request : String) :
    ∀ (l : Registry) (b : Option String × ℚ), 0 ≤ b.2 →
      0 ≤ (l.foldl
        (fun best p =>
          let score := (calculate_agent_score sk request p.2).1
          if best.2 < score then (some p.1, score) else best) b).2
  | [], _, hb => hb
  | p :: l, b, hb => by
    simp only [List.foldl_cons]
    apply bestAgentFold_go_nonneg sk request l
    dsimp only
    split
    next h => exact le_of_lt (lt_of_le_of_lt hb h)
    next => exact hb

/-- When every agent scores at most 0, the fold never replaces its
initial zero-score best. -/
theorem bestAgentFold_all_zero (sk : String → List String) (request : String) :
    ∀ (l : Registry), (∀ p ∈ l, (calculate_agent_score sk request p.2).1 ≤ 0) →
      l.foldl
        (fun best p =>
          let score := (calculate_agent_score sk request p.2).1
          if best.2 < score then (some p.1, score) else best)
        ((none : Option String), (0 : ℚ)) = (none, 0)
  | [], _ => rfl
  | p :: l, h => by
    have hp := h p (List.mem_cons_self p l)
    simp only [List.foldl_cons]
    have hcond : ¬ ((0 : ℚ) < (calculate_agent_score sk request p.2).1) := not_lt.mpr hp
    simp only [hcond, if_false]
    exact bestAgentFold_all_zero sk request l fun q hq => h q (List.mem_cons_of_mem p hq)


/-- Closed form of analyze_request by cases on the fold outcome and the
registry. -/
theorem analyze_request_eq (sk : String → List String) (agents : Registry) (request : String) :
    analyze_request sk agents request =
      match (bestAgentFold sk agents request).1, agents with
      | some a, _ => some (a, min ((bestAgentFold sk agents request).2 / 5) 1)
      | none, [] => none
      | none, p :: _ => some (p.1, min ((3 / 10 : ℚ) / 5) 1) := by
  unfold analyze_request
  rcases h : (bestAgentFold sk agents request).1 with _ | a
  · cases agents <;> simp [h]
  · simp [h]

/-! ## C1: single-agent confidence -/

/-- A registered agent card with no skills: every request scores it 0. -/
def cardNoSkills : AgentCard :=
  { name := "alpha", description := "", url := "http://localhost:8001", skills := [] }

/-- C1 counterexample: over the one-agent registry whose agent scores 0
on the request, the analyze step does fall back to the first registered
agent, but its confidence is min(0.3 / 5.0, 1.0) = 0.06, not the claimed
fixed 0.3. -/
theorem analyze_request_fallback_counterexample :
    (calculate_agent_score (fun _ => []) "hello" cardNoSkills).1 = 0 ∧
      analyze_request (fun _ => []) [("agent1", cardNoSkills)] "hello"
        = some ("agent1", 3 / 50) ∧
      (3 / 50 : ℚ) ≠ 3 / 10 := by
  refine ⟨by decide, by decide, by norm_num⟩

/-- C1 amended: for every request over a non-empty registry the returned
confidence is min(score / 5.0, 1.0) for a non-negative score and lies in
the closed interval from 0 to 1, and when no agent scores above 0 the
first registered agent is selected with the score fixed at 0.3, hence
confidence 0.06. -/
theorem analyze_request_confidence (sk : String → List String) (agents : Registry)
    (request : String) (hne : agents ≠ []) :
    (∃ a score, 0 ≤ score ∧
        analyze_request sk agents request = some (a, min (score / 5) 1)) ∧
      ((∀ p ∈ agents, (calculate_agent_score sk request p.2).1 ≤ 0) →
        analyze_request sk agents request = some ((agents.head hne).1, 3 / 50)) ∧
      (∀ a c, analyze_request sk agents request = some (a, c) → 0 ≤ c ∧ c ≤ 1) := by
  have hbound : ∀ score : ℚ, 0 ≤ score → 0 ≤ min (score / 5) 1 ∧ min (score / 5) 1 ≤ 1 :=
    fun score hs => ⟨le_min (by positivity) zero_le_one, min_le_right _ _⟩
  have heq := analyze_request_eq sk agents request
  refine ⟨?_, ?_, ?_⟩
  · rw [heq]
    rcases h : (bestAgentFold sk agents request).1 with _ | a
    · match agents, hne with
      | p :: l, _ => exact ⟨p.1, 3 / 10, by norm_num, rfl⟩
    · exact ⟨a, (bestAgentFold sk agents request).2,
        bestAgentFold_go_nonneg sk request agents (none, 0) le_rfl, rfl⟩
  · intro hzero
    have hfold : bestAgentFold sk agents request = (none, 0) :=
      bestAgentFold_all_zero sk request agents hzero
    rw [heq, hfold]
    match agents, hne with
    | p :: l, _ => norm_num [List.head]
  · intro a c hc
    rw [heq] at hc
    rcases h : (bestAgentFold sk agents request).1 with _ | b <;> rw [h] at hc
    · match agents, hne with
      | p :: l, _ =>
        simp only [Option.some.injEq, Prod.mk.injEq] at hc
        rw [← hc.2]
        exact hbound _ (by norm_num)
    · simp only [Option.some.injEq, Prod.mk.injEq] at hc
      rw [← hc.2]
      exact hbound _ (bestAgentFold_go_nonneg sk request agents (none, 0) le_rfl)

/-- C1 witness: the amended theorem applied to a concrete one-agent
registry and a request scoring 0. -/
theorem analyze_request_confidence_witness :
    analyze_request (fun _ => []) [("agent1", cardNoSkills)] "hello"
      = some ("agent1", 3 / 50) :=
  (analyze_request_confidence (fun _ => []) [("agent1", cardNoSkills)] "hello"
      (by decide)).2.1 (by decide)

/-! ## C5: scorer non-negativity and monotonicity -/

/-- C5: for every request and agent the score is non-negative, and it is
monotone in the set of matched tags and skill keywords: when every tag
and skill keyword matching one request also matches another, the score
of the first request is at most the score of the second. -/
theorem calculate_agent_score_nonneg_mono (sk : String → List String)
    (r1 r2 : String) (card : AgentCard)
    (htag : ∀ kw ∈ (card.skills.map (fun s => s.tags)).flatten,
      strIn (lowerChars kw) (lowerChars r1) = true →
        strIn (lowerChars kw) (lowerChars r2) = true)
    (hskill : ∀ s ∈ card.skills,
      skill_matches_request sk s.name r1 = true →
        skill_matches_request sk s.name r2 = true) :
    0 ≤ (calculate_agent_score sk r1 card).1 ∧
      (calculate_agent_score sk r1 card).1 ≤ (calculate_agent_score sk r2 card).1 := by
  unfold calculate_agent_score
  dsimp only
  constructor
  · positivity
  · have hcount :
        ((card.skills.map (fun s => s.tags)).flatten.countP
            fun kw => strIn (lowerChars kw) (lowerChars r1)) ≤
          (card.skills.map (fun s => s.tags)).flatten.countP
            fun kw => strIn (lowerChars kw) (lowerChars r2) :=
      List.countP_mono_left htag
    have hfilter :
        (card.skills.filter fun s => skill_matches_request sk s.name r1).length ≤
          (card.skills.filter fun s => skill_matches_request sk s.name r2).length := by
      rw [← List.countP_eq_length_filter, ← List.countP_eq_length_filter]
      exact List.countP_mono_left hskill
    have h1 : ((card.skills.map (fun s => s.tags)).flatten.countP
        (fun kw => strIn (lowerChars kw) (lowerChars r1)) : ℚ) ≤
        ((card.skills.map (fun s => s.tags)).flatten.countP
          (fun kw => strIn (lowerChars kw) (lowerChars r2)) : ℚ) := by
      exact_mod_cast hcount
    have h2 : ((card.skills.filter fun s => skill_matches_request sk s.name r1).length : ℚ) ≤
        ((card.skills.filter fun s => skill_matches_request sk s.name r2).length : ℚ) := by
      exact_mod_cast hfilter
    have h32 : (0 : ℚ) ≤ 3 / 2 := by norm_num
    exact add_le_add h1 (mul_le_mul_of_nonneg_left h2 h32)

/-- A one-skill math agent card used by concrete score checks. -/
def cardMath : AgentCard :=
  { name := "math", description := "", url := "http://localhost:8002",
    skills := [{ name := "arithmetic", description := "", tags := ["math", "calculate"] }] }

/-- C5 witness: the monotonicity theorem applied to a concrete agent and
the requests hi and hi math. -/
theorem calculate_agent_score_nonneg_mono_witness :
    0 ≤ (calculate_agent_score (fun _ => ["arithmetic"]) "hi" cardMath).1 ∧
      (calculate_agent_score (fun _ => ["arithmetic"]) "hi" cardMath).1 ≤
        (calculate_agent_score (fun _ => ["arithmetic"]) "hi math" cardMath).1 :=
  calculate_agent_score_nonneg_mono (fun _ => ["arithmetic"]) "hi" "hi math" cardMath
    (by decide) (by decide)


/-! ## Helper lemmas about the capability index -/

/-- indexAdd keeps every agent list of the index non-empty. -/
theorem indexAdd_nonempty : ∀ (idx : CapIndex) (cap agentId : String),
    (∀ p ∈ idx, p.2 ≠ []) → ∀ p ∈ indexAdd idx cap agentId, p.2 ≠ []
  | [], cap, agentId, _h => by
    intro p hp
    simp only [indexAdd, List.mem_singleton] at hp
    subst hp
    simp
  | (c, l) :: rest, cap, agentId, h => by
    intro p hp
    simp only [indexAdd] at hp
    split at hp
    · rcases List.mem_cons.mp hp with hp | hp
      · subst hp
        dsimp only
        split
        · exact h (c, l) (List.mem_cons_self _ _)
        · simp
      · exact h p (List.mem_cons_of_mem _ hp)
    · rcases List.mem_cons.mp hp with hp | hp
      · subst hp
        exact h (c, l) (List.mem_cons_self _ _)
      · exact indexAdd_nonempty rest cap agentId
          (fun q hq => h q (List.mem_cons_of_mem _ hq)) p hp

/-- Registering a capability list keeps agent lists non-empty. -/
theorem foldlIndexAdd_nonempty (agentId : String) :
    ∀ (caps : List String) (idx : CapIndex),
      (∀ p ∈ idx, p.2 ≠ []) →
      ∀ p ∈ caps.foldl (fun i c => indexAdd i c agentId) idx, p.2 ≠ []
  | [], _idx, h => h
  | c :: caps, idx, h =>
    foldlIndexAdd_nonempty agentId caps (indexAdd idx c agentId)
      (indexAdd_nonempty idx c agentId h)

/-- Building the index over any agent list keeps agent lists non-empty. -/
theorem buildIndex_go_nonempty : ∀ (agents : Registry) (idx : CapIndex),
    (∀ p ∈ idx, p.2 ≠ []) →
    ∀ p ∈ agents.foldl (fun idx q => registerAgentCapabilities idx q.1 q.2) idx, p.2 ≠ []
  | [], _idx, h => h
  | a :: agents, idx, h =>
    buildIndex_go_nonempty agents (registerAgentCapabilities idx a.1 a.2)
      (foldlIndexAdd_nonempty a.1 (agentCapabilities a.2) idx h)

/-- Membership survives the erase backwards. -/
theorem indexErase_mem : ∀ {idx : CapIndex} {w : String} {p : String × List String},
    p ∈ indexErase idx w → p ∈ idx := by
  intro idx w p hp
  induction idx with
  | nil => exact absurd hp (List.not_mem_nil p)
  | cons q rest ih =>
    rcases q with ⟨c, l⟩
    rw [indexErase] at hp
    split at hp
    · exact List.mem_cons_of_mem _ (ih hp)
    · rcases List.mem_cons.mp hp with hp | hp
      · exact hp ▸ List.mem_cons_self _ _
      · exact List.mem_cons_of_mem _ (ih hp)

/-- Membership survives one pruning step backwards. -/
theorem pruneStep_mem (n : Nat) (idx : CapIndex) (w : String) {p : String × List String}
    (hp : p ∈ pruneStep n idx w) : p ∈ idx := by
  unfold pruneStep at hp
  split at hp
  · split at hp
    · exact indexErase_mem hp
    · exact hp
  · exact hp

/-- Membership survives the whole pruning pass backwards. -/
theorem pruneFold_mem (n : Nat) : ∀ (ws : List String) (idx : CapIndex) {p : String × List String},
    p ∈ ws.foldl (pruneStep n) idx → p ∈ idx
  | [], _idx, _p, hp => hp
  | w :: ws, idx, _p, hp => pruneStep_mem n idx w (pruneFold_mem n ws (pruneStep n idx w) hp)

/-- Looking up the erased key yields nothing. -/
theorem alookup_indexErase_self : ∀ (idx : CapIndex) (w : String),
    alookup (indexErase idx w) w = none := by
  intro idx w
  induction idx with
  | nil => rfl
  | cons q rest ih =>
    rcases q with ⟨c, l⟩
    rw [indexErase]
    by_cases h : c = w
    · rw [if_pos h]
      exact ih
    · rw [if_neg h, alookup, if_neg (fun hwc => h hwc.symm)]
      exact ih

/-- Erasing a different key does not change a lookup. -/
theorem alookup_indexErase_ne : ∀ (idx : CapIndex) (w' w : String), w ≠ w' →
    alookup (indexErase idx w') w = alookup idx w := by
  intro idx w' w hne
  induction idx with
  | nil => rfl
  | cons q rest ih =>
    rcases q with ⟨c, l⟩
    rw [indexErase]
    by_cases h : c = w'
    · rw [if_pos h, alookup, if_neg (fun hwc => hne (hwc.trans h))]
      exact ih
    · rw [if_neg h, alookup, alookup]
      by_cases hwc : w = c
      · rw [if_pos hwc, if_pos hwc]
      · rw [if_neg hwc, if_neg hwc]
        exact ih

/-- One pruning step either empties the pruned lookup or keeps any
lookup unchanged. -/
theorem pruneStep_alookup_cases (n : Nat) (idx : CapIndex) (w' w : String) :
    alookup (pruneStep n idx w') w = none ∨
      alookup (pruneStep n idx w') w = alookup idx w := by
  unfold pruneStep
  split
  · split
    · by_cases h : w = w'
      · exact Or.inl (h ▸ alookup_indexErase_self idx w)
      · exact Or.inr (alookup_indexErase_ne idx w' w h)
    · exact Or.inr rfl
  · exact Or.inr rfl

/-- A lookup surviving one pruning step of its own word is short. -/
theorem pruneStep_alookup_lt (n : Nat) (idx : CapIndex) (w : String) (l : List String)
    (hl : alookup (pruneStep n idx w) w = some l) : l.length < n := by
  unfold pruneStep at hl
  cases hcase : alookup idx w with
  | none => rw [hcase] at hl; dsimp only at hl; rw [hcase] at hl; exact absurd hl (by simp)
  | some l0 =>
    rw [hcase] at hl
    dsimp only at hl
    by_cases hlen : n ≤ l0.length
    · rw [if_pos hlen] at hl
      rw [alookup_indexErase_self idx w] at hl
      exact absurd hl (by simp)
    · rw [if_neg hlen] at hl
      rw [hcase] at hl
      cases hl
      exact Nat.lt_of_not_le hlen

/-- Pruning over any word list either empties a lookup or leaves it
unchanged. -/
theorem pruneFold_alookup_cases (n : Nat) : ∀ (ws : List String) (idx : CapIndex) (w : String),
    alookup (ws.foldl (pruneStep n) idx) w = none ∨
      alookup (ws.foldl (pruneStep n) idx) w = alookup idx w
  | [], _idx, _w => Or.inr rfl
  | w' :: ws, idx, w => by
    rw [List.foldl_cons]
    rcases pruneFold_alookup_cases n ws (pruneStep n idx w') w with h | h
    · exact Or.inl h
    · rcases pruneStep_alookup_cases n idx w' w with h2 | h2
      · exact Or.inl (h.trans h2)
      · exact Or.inr (h.trans h2)

/-- Pruning never touches a word outside the pruned word list. -/
theorem pruneFold_alookup_notmem (n : Nat) : ∀ (ws : List String) (idx : CapIndex) (w : String),
    w ∉ ws → alookup (ws.foldl (pruneStep n) idx) w = alookup idx w
  | [], _idx, _w, _h => rfl
  | w' :: ws, idx, w, h => by
    rw [List.foldl_cons]
    have h1 : w ≠ w' := fun he => h (he ▸ List.mem_cons_self _ _)
    have h2 : w ∉ ws := fun hm => h (List.mem_cons_of_mem _ hm)
    rw [pruneFold_alookup_notmem n ws (pruneStep n idx w') w h2]
    unfold pruneStep
    split
    · split
      · exact alookup_indexErase_ne idx w' w h1
      · rfl
    · rfl

/-! ## C2: capability index rebuild invariants -/

/-- First agent of the C2 counterexample registry: carries the stoplist
tag data and the shared tag shared. -/
def cardStopA : AgentCard :=
  { name := "alpha", description := "", url := "http://localhost:8001",
    skills := [{ name := "s1", description := "", tags := ["data", "shared"] }] }

/-- Second agent of the C2 counterexample registry: carries only the
shared tag. -/
def cardStopB : AgentCard :=
  { name := "beta", description := "", url := "http://localhost:8002",
    skills := [{ name := "s2", description := "", tags := ["shared"] }] }

/-- C2 counterexample: after the rebuild over this two-agent registry,
the stoplist word data (attributed to one of the two agents) is still in
the index, and the non-stoplist keyword shared, attributed to all
currently registered agents, is also still in the index.  Both pruning
clauses of the claim fail. -/
theorem update_capability_registry_counterexample :
    alookup (update_capability_registry [("A", cardStopA), ("B", cardStopB)]) "data"
        = some ["A"] ∧
      "data" ∈ commonWords ∧
      alookup (update_capability_registry [("A", cardStopA), ("B", cardStopB)]) "shared"
        = some ["A", "B"] ∧
      "shared" ∉ commonWords ∧
      ([("A", cardStopA), ("B", cardStopB)] : Registry).length = 2 := by
  refine ⟨by decide, by decide, by decide, by decide, rfl⟩

/-- C2 amended: after every rebuild, every capability keyword in the
index maps to at least one registered agent; a stoplist word surviving
the rebuild is attributed to fewer agents than are registered (so a
stoplist word attributed to all agents is pruned); and keywords outside
the stoplist are never pruned, even when attributed to all agents. -/
theorem update_capability_registry_invariants (agents : Registry) :
    (∀ p ∈ update_capability_registry agents, p.2 ≠ []) ∧
      (∀ w ∈ commonWords, ∀ l,
        alookup (update_capability_registry agents) w = some l →
          l.length < agents.length) ∧
      (∀ w, w ∉ commonWords →
        alookup (update_capability_registry agents) w
          = alookup (builtCapabilityIndex agents) w) := by
  refine ⟨?_, ?_, ?_⟩
  · intro p hp
    have hbuilt : ∀ q ∈ builtCapabilityIndex agents, q.2 ≠ [] :=
      buildIndex_go_nonempty agents [] (by intro q hq; exact absurd hq (List.not_mem_nil q))
    exact hbuilt p (pruneFold_mem agents.length commonWords (builtCapabilityIndex agents) hp)
  · intro w hw l hl
    obtain ⟨as, bs, hsplit⟩ := List.append_of_mem hw
    unfold update_capability_registry pruneCommon at hl
    rw [hsplit, List.foldl_append, List.foldl_cons] at hl
    rcases pruneFold_alookup_cases agents.length bs
        (pruneStep agents.length (as.foldl (pruneStep agents.length)
          (builtCapabilityIndex agents)) w) w with h | h
    · rw [h] at hl
      exact absurd hl (by simp)
    · rw [h] at hl
      exact pruneStep_alookup_lt agents.length _ w l hl
  · intro w hw
    unfold update_capability_registry pruneCommon
    exact pruneFold_alookup_notmem agents.length commonWords (builtCapabilityIndex agents) w hw

/-- C2 witness: the amended invariants applied to the concrete two-agent
registry, at the surviving stoplist word data and at the index entry of
shared. -/
theorem update_capability_registry_invariants_witness :
    (["A"] : List String).length < ([("A", cardStopA), ("B", cardStopB)] : Registry).length ∧
      (("shared", ["A", "B"]) : String × List String).2 ≠ [] :=
  ⟨(update_capability_registry_invariants [("A", cardStopA), ("B", cardStopB)]).2.1
      "data" (by decide) ["A"] (by decide),
    (update_capability_registry_invariants [("A", cardStopA), ("B", cardStopB)]).1
      ("shared", ["A", "B"]) (by decide)⟩

/-! ## C4: unregister identifier resolution -/

/-- First agent of the C4 counterexample registry: its endpoint contains
the digits 8002. -/
def cardPortX : AgentCard :=
  { name := "X", description := "", url := "http://localhost:8002", skills := [] }

/-- Second agent of the C4 counterexample registry: its agent id is
exactly 8002. -/
def cardPortY : AgentCard :=
  { name := "8002", description := "", url := "http://otherhost", skills := [] }

/-- C4 counterexample: for identifier 8002, an exact agent-id match
exists (the second agent), yet unregister removes the first agent, whose
endpoint merely contains the identifier as a substring.  The resolution
is agent-major (first agent matching any criterion), not criterion-major
as claimed. -/
theorem unregister_agent_order_counterexample :
    resolveAgent [("X", cardPortX), ("8002", cardPortY)] "8002" = some ("X", cardPortX) ∧
      ("8002", cardPortY) ∈ ([("X", cardPortX), ("8002", cardPortY)] : Registry) ∧
      (unregister_agent [("X", cardPortX), ("8002", cardPortY)] "8002").2
        = [("8002", cardPortY)] := by
  refine ⟨by decide, by decide, by decide⟩

/-- C4 amended: unregister walks the registry in registration order and
removes the first agent for which any of the four criteria holds (the
criteria being tested per agent in the order exact id, exact endpoint,
case-insensitive name, identifier-contained-in-endpoint); every earlier
agent matches no criterion, and a none result means no agent matches. -/
theorem unregister_agent_resolution (agents : Registry) (ident : String) :
    (∀ p, resolveAgent agents ident = some p →
        agentIdentifierMatches ident p = true ∧
          ∃ pre post, agents = pre ++ p :: post ∧
            ∀ q ∈ pre, agentIdentifierMatches ident q = false) ∧
      (resolveAgent agents ident = none →
        ∀ q ∈ agents, agentIdentifierMatches ident q = false) ∧
      (∀ p, resolveAgent agents ident = some p →
        unregister_agent agents ident
          = (UnregisterResult.ok p.1 p.2.name p.2.url, dictEraseCard agents p.1)) := by
  refine ⟨?_, ?_, ?_⟩
  · intro p hp
    rw [resolveAgent, List.find?_eq_some] at hp
    refine ⟨hp.1, ?_⟩
    obtain ⟨pre, post, hsplit, hpre⟩ := hp.2
    exact ⟨pre, post, hsplit, fun q hq => by simpa using hpre q hq⟩
  · intro hnone q hq
    rw [resolveAgent, List.find?_eq_none] at hnone
    simpa using hnone q hq
  · intro p hp
    unfold unregister_agent
    rw [hp]

/-- C4 witness: the resolution theorem applied to the concrete registry
of the counterexample, exhibiting the removed first matching agent. -/
theorem unregister_agent_resolution_witness :
    unregister_agent [("X", cardPortX), ("8002", cardPortY)] "8002"
      = (UnregisterResult.ok "X" "X" "http://localhost:8002",
          dictEraseCard [("X", cardPortX), ("8002", cardPortY)] "X") :=
  (unregister_agent_resolution [("X", cardPortX), ("8002", cardPortY)] "8002").2.2
    ("X", cardPortX) (by decide)

/-! ## C9: atomicity of register and unregister failures -/

/-- C9: a failed metadata fetch makes register return a structured
failure and leaves the registry, and so the rebuilt capability index,
unchanged; an identifier matching no agent makes unregister return a
structured failure carrying the list of currently known agent ids, with
the registry unchanged. -/
theorem register_unregister_atomic_on_failure (agents : Registry) (endpoint ident : String) :
    register_agent agents endpoint none = (RegisterResult.fetchFailed endpoint, agents) ∧
      update_capability_registry (register_agent agents endpoint none).2
        = update_capability_registry agents ∧
      (resolveAgent agents ident = none →
        unregister_agent agents ident
          = (UnregisterResult.notFound ident (agents.map fun p => p.1), agents)) := by
  refine ⟨rfl, rfl, ?_⟩
  intro hnone
  unfold unregister_agent
  rw [hnone]

/-- C9 witness: the atomicity theorem applied to a concrete one-agent
registry and an identifier matching nothing. -/
theorem register_unregister_atomic_on_failure_witness :
    unregister_agent [("A", cardNoSkills)] "zzz"
      = (UnregisterResult.notFound "zzz" ["A"], [("A", cardNoSkills)]) :=
  (register_unregister_atomic_on_failure [("A", cardNoSkills)] "http://e" "zzz").2.2
    (by decide)

/-! ## C7: multi-step detection -/

/-- The nested cross-domain scan is exactly an existence statement over
index pairs among the first five scored capabilities. -/
theorem crossDomainOperation_iff (capReg : CapIndex) (sorted : List (String × ℚ)) :
    crossDomainOperation capReg sorted = true ↔
      ∃ i j c1 s1 c2 s2, i < j ∧ j < min 5 sorted.length ∧
        sorted.get? i = some (c1, s1) ∧ sorted.get? j = some (c2, s2) ∧
        1 < s1 ∧ 1 / 2 < s2 ∧
        listsIntersect (regLookup capReg c1) (regLookup capReg c2) = false := by
  unfold crossDomainOperation
  by_cases hlen : 2 ≤ sorted.length
  · rw [if_pos hlen]
    constructor
    · intro h
      obtain ⟨i, hi, h⟩ := List.any_eq_true.mp h
      obtain ⟨j, hj, h⟩ := List.any_eq_true.mp h
      rw [List.mem_range] at hi
      rw [List.mem_range'_1] at hj
      have hjm : j < min 5 sorted.length := by omega
      have hil : i < sorted.length := lt_of_lt_of_le hi (min_le_right _ _)
      have hjl : j < sorted.length := lt_of_lt_of_le hjm (min_le_right _ _)
      rw [List.get?_eq_get hil, List.get?_eq_get hjl] at h
      rcases hp : sorted.get ⟨i, hil⟩ with ⟨c1, s1⟩
      rcases hq : sorted.get ⟨j, hjl⟩ with ⟨c2, s2⟩
      rw [hp, hq] at h
      dsimp only at h
      simp only [Bool.and_eq_true, decide_eq_true_eq, Bool.not_eq_true'] at h
      exact ⟨i, j, c1, s1, c2, s2, by omega, hjm,
        by rw [List.get?_eq_get hil, hp],
        by rw [List.get?_eq_get hjl, hq],
        h.1.1, h.1.2, h.2⟩
    · rintro ⟨i, j, c1, s1, c2, s2, hij, hjm, hgi, hgj, hs1, hs2, hint⟩
      refine List.any_eq_true.mpr ⟨i, List.mem_range.mpr (by omega), ?_⟩
      refine List.any_eq_true.mpr ⟨j, List.mem_range'_1.mpr ⟨by omega, by omega⟩, ?_⟩
      rw [hgi, hgj]
      dsimp only
      simp only [Bool.and_eq_true, decide_eq_true_eq, Bool.not_eq_true']
      exact ⟨⟨hs1, hs2⟩, hint⟩
  · rw [if_neg hlen]
    constructor
    · intro h
      exact absurd h (by simp)
    · rintro ⟨i, j, c1, s1, c2, s2, hij, hjm, _⟩
      have : sorted.length ≤ 1 := by omega
      omega
/-- C7: the detector returns true for every lowercased request containing
the phrase and then regardless of scores; with no connective phrase
present, it returns true exactly when two of the top five scored
capabilities have disjoint agent sets with the higher score above 1.0
and the lower above 0.5; in particular one single scored capability and
no connective phrase yield false. -/
theorem is_multi_step_request_spec (capReg : CapIndex) (requestLower : String)
    (sorted : List (String × ℚ)) :
    (strIn "and then".toList requestLower.toList = true →
        is_multi_step_request capReg requestLower sorted = true) ∧
      ((∀ ind ∈ multiStepIndicators, strIn ind.toList requestLower.toList = false) →
        (is_multi_step_request capReg requestLower sorted = true ↔
          ∃ i j c1 s1 c2 s2, i < j ∧ j < min 5 sorted.length ∧
            sorted.get? i = some (c1, s1) ∧ sorted.get? j = some (c2, s2) ∧
            1 < s1 ∧ 1 / 2 < s2 ∧
            listsIntersect (regLookup capReg c1) (regLookup capReg c2) = false)) ∧
      ((∀ ind ∈ multiStepIndicators, strIn ind.toList requestLower.toList = false) →
        ∀ c s, is_multi_step_request capReg requestLower [(c, s)] = false) := by
  have hconnOf : ∀ (h : ∀ ind ∈ multiStepIndicators, strIn ind.toList requestLower.toList = false),
      hasExplicitConnectors requestLower = false := by
    intro h
    unfold hasExplicitConnectors
    rw [List.any_eq_false]
    intro ind hind
    rw [h ind hind]
    simp
  refine ⟨?_, ?_, ?_⟩
  · intro h
    unfold is_multi_step_request
    have : hasExplicitConnectors requestLower = true :=
      List.any_eq_true.mpr ⟨"and then", by decide, h⟩
    rw [this, Bool.true_or]
  · intro h
    unfold is_multi_step_request
    rw [hconnOf h, Bool.false_or]
    exact crossDomainOperation_iff capReg sorted
  · intro h c s
    unfold is_multi_step_request
    rw [hconnOf h, Bool.false_or]
    rw [← Bool.not_eq_true]
    intro hcd
    obtain ⟨i, j, c1, s1, c2, s2, hij, hjm, _⟩ :=
      (crossDomainOperation_iff capReg [(c, s)]).mp hcd
    simp only [List.length_singleton] at hjm
    omega

/-- C7 witness: the detector theorem applied to a concrete connective
request and to a concrete connective-free cross-domain score list. -/
theorem is_multi_step_request_spec_witness :
    is_multi_step_request [] "convert usd and then double it" [] = true ∧
      is_multi_step_request [("math", ["M"]), ("currency", ["C"])] "xyz"
        [("math", 2), ("currency", 1)] = true ∧
      is_multi_step_request [("math", ["M"]), ("currency", ["C"])] "xyz"
        [("math", 2)] = false :=
  ⟨(is_multi_step_request_spec [] "convert usd and then double it" []).1 (by decide),
    ((is_multi_step_request_spec [("math", ["M"]), ("currency", ["C"])] "xyz"
          [("math", 2), ("currency", 1)]).2.1 (by decide)).mpr
      ⟨0, 1, "math", 2, "currency", 1, by omega, by simp, rfl, rfl, by norm_num, by norm_num,
        by decide⟩,
    (is_multi_step_request_spec [("math", ["M"]), ("currency", ["C"])] "xyz"
        [("math", 2)]).2.2 (by decide) "math" 2⟩

/-! ## C6: default decomposer shape -/

/-- C6: over any non-empty available-capability list the default
decomposer returns one or two requirements, and the requirement at index
i has priority 1.0 - 0.1 * i. -/
theorem generic_pattern_matching_shape (capReg : CapIndex) (request : String)
    (available : List String) (_hne : available ≠ []) :
    ((generic_pattern_matching capReg request available).length = 1 ∨
        (generic_pattern_matching capReg request available).length = 2) ∧
      ∀ i t, (generic_pattern_matching capReg request available).get? i = some t →
        t.priority = 1 - (i : ℚ) * (1 / 10) := by
  have hsingle : ∀ (cap : String) (l : List TaskReq), l = [singleReq cap request] →
      (l.length = 1 ∨ l.length = 2) ∧
        ∀ i t, l.get? i = some t → t.priority = 1 - (i : ℚ) * (1 / 10) := by
    intro cap l hl
    subst hl
    refine ⟨Or.inl rfl, ?_⟩
    intro i t ht
    cases i with
    | zero =>
      rw [List.get?_cons_zero] at ht
      cases ht
      norm_num [singleReq]
    | succ n =>
      rw [List.get?_cons_succ, List.get?_nil] at ht
      cases ht
  have hpair : ∀ (c1 c2 : String) (l : List TaskReq),
      l = [c1, c2].enum.map (fun p => buildStep request p.1 p.2) →
      (l.length = 1 ∨ l.length = 2) ∧
        ∀ i t, l.get? i = some t → t.priority = 1 - (i : ℚ) * (1 / 10) := by
    intro c1 c2 l hl
    subst hl
    refine ⟨Or.inr rfl, ?_⟩
    intro i t ht
    match i with
    | 0 =>
      rw [show ([c1, c2].enum.map (fun p => buildStep request p.1 p.2)).get? 0
          = some (buildStep request 0 c1) from rfl] at ht
      cases ht
      norm_num [buildStep]
    | 1 =>
      rw [show ([c1, c2].enum.map (fun p => buildStep request p.1 p.2)).get? 1
          = some (buildStep request 1 c2) from rfl] at ht
      cases ht
      norm_num [buildStep]
    | n + 2 =>
      rw [show ([c1, c2].enum.map (fun p => buildStep request p.1 p.2)).get? (n + 2)
          = none from rfl] at ht
      cases ht
  unfold generic_pattern_matching
  dsimp only
  rcases hs : sortedCapabilitiesOf (lowerStr request) available with _ | ⟨⟨c1, s1⟩, rest⟩
  · exact hsingle (available.headD "general") _ rfl
  · dsimp only
    by_cases hms : is_multi_step_request capReg (lowerStr request) ((c1, s1) :: rest) = true
    · rw [if_pos hms, selectFirstCap]
      by_cases h1 : 1 < s1
      · rw [if_pos h1]
        dsimp only
        rcases hsec : selectSecondCap capReg (regLookup capReg c1) rest with _ | c2
        · exact hsingle c1 _ (by rw [if_pos (by simp)])
        · have hlen : ¬ (([c1] ++ (some c2).toList).length ≤ 1) := by simp
          rw [if_neg hlen]
          exact hpair c1 c2 _ rfl
      · rw [if_neg h1]
        dsimp only
        rcases hsec : selectSecondCap capReg ([] : List String) rest with _ | c2
        · exact hsingle c1 _ (by rw [if_pos (by simp)])
        · exact hsingle c1 _ (by rw [if_pos (by simp)])
    · rw [if_neg hms]
      exact hsingle c1 _ rfl

/-- C6 witness: the shape theorem applied to a concrete capability
lineup producing a two-step decomposition. -/
theorem generic_pattern_matching_shape_witness :
    ((generic_pattern_matching [("math", ["M"]), ("currency", ["C"])]
          "convert usd to eur and then math things" ["currency", "math"]).length = 1 ∨
        (generic_pattern_matching [("math", ["M"]), ("currency", ["C"])]
          "convert usd to eur and then math things" ["currency", "math"]).length = 2) :=
  (generic_pattern_matching_shape [("math", ["M"]), ("currency", ["C"])]
      "convert usd to eur and then math things" ["currency", "math"] (by decide)).1

/-! ## C8: polling loop bound -/

/-- The state a poll reply reports, if any. -/
def replyState : PollReply → Option String
  | PollReply.noResult => none
  | PollReply.result snap => snap.state

/-- An agent whose task polls as permanently failed. -/
def pollFailOracle : Nat → PollReply :=
  fun _ => PollReply.result { state := some "failed", artifacts := [], statusMessageParts := [] }

/-- C8 counterexample: against an agent whose task never reaches the
completed state (it always polls as failed), the loop terminates after
one poll with the failed-task report, not with the timeout result. -/
theorem poll_failed_counterexample :
    ((List.range pollAttempts).all fun n =>
        replyState (pollFailOracle n) != some "completed") = true ∧
      pollForCompletion pollFailOracle = ("Agent task failed", 1) ∧
      "Agent task failed" ≠ "Task did not complete within timeout" := by
  refine ⟨by decide, by decide, by decide⟩

/-- The loop never polls more often than its remaining budget. -/
theorem pollFrom_count_le (oracle : Nat → PollReply) : ∀ (attempt r : Nat),
    (pollFrom oracle attempt r).2 ≤ r
  | _attempt, 0 => le_refl 0
  | attempt, r + 1 => by
    rw [pollFrom]
    cases pollStep (oracle attempt) with
    | some s => simp
    | none =>
      dsimp only
      exact Nat.succ_le_succ (pollFrom_count_le oracle (attempt + 1) r)

/-- When every poll in the window is non-terminal the loop exhausts its
budget with no early return. -/
theorem pollFrom_all_none (oracle : Nat → PollReply) : ∀ (attempt r : Nat),
    (∀ n, attempt ≤ n → n < attempt + r → pollStep (oracle n) = none) →
    pollFrom oracle attempt r = (none, r)
  | _attempt, 0, _h => rfl
  | attempt, r + 1, h => by
    rw [pollFrom]
    rw [h attempt (le_refl attempt) (by omega)]
    dsimp only
    rw [pollFrom_all_none oracle (attempt + 1) r (fun n h1 h2 => h n (by omega) (by omega))]

/-- C8 amended: the polling loop performs at most 30 poll attempts (a
bound inside the stated 10 to 30 range), and when no poll within the
bound returns a terminal state (completed, failed or input-required, the
three early returns of the loop body) it ends with the timeout result;
a poll reporting failed or input-required ends the loop early with that
report instead of the timeout result. -/
theorem pollForCompletion_bounded (oracle : Nat → PollReply) :
    (pollForCompletion oracle).2 ≤ pollAttempts ∧
      10 ≤ pollAttempts ∧ pollAttempts ≤ 30 ∧
      ((∀ n, n < pollAttempts → pollStep (oracle n) = none) →
        pollForCompletion oracle = ("Task did not complete within timeout", pollAttempts)) := by
  refine ⟨pollFrom_count_le oracle 0 pollAttempts, by norm_num [pollAttempts],
    by norm_num [pollAttempts], ?_⟩
  intro h
  unfold pollForCompletion
  rw [pollFrom_all_none oracle 0 pollAttempts (fun n _ h2 => h n (by omega))]
  rfl

/-- C8 witness: the bound theorem applied to an agent whose task never
produces a poll result at all. -/
theorem pollForCompletion_bounded_witness :
    pollForCompletion (fun _ => PollReply.noResult)
      = ("Task did not complete within timeout", pollAttempts) :=
  (pollForCompletion_bounded (fun _ => PollReply.noResult)).2.2.2 (fun _ _ => rfl)

/-! ## C10: failure frame of one execution step -/

/-- The error string recorded for a failed step is never empty. -/
theorem step_error_ne_empty (i : Nat) (e : String) :
    ("Step " ++ toString i ++ " failed: " ++ e) ≠ "" := by
  intro h
  have hlen := congrArg String.length h
  rw [String.length_append, String.length_append, String.length_append] at hlen
  have h5 : ("Step " : String).length = 5 := rfl
  rw [h5] at hlen
  simp at hlen

/-- C10: when the remote call of the current step raises, the state
changes only in its error field (cursor, intermediate results, request,
plan and metadata are untouched), and the continuation predicate then
answers finish. -/
theorem execute_step_failure_frame (agents : Registry)
    (forward : String → String → Except String String) (st : MultiAgentState)
    (h : st.currentStep < st.executionPlan.length) (card : AgentCard)
    (hcard : alookup agents (st.executionPlan.get ⟨st.currentStep, h⟩).agentId = some card)
    (e : String)
    (hfail : forward card.url
        (build_task_with_dependencies
          (st.executionPlan.get ⟨st.currentStep, h⟩).taskDescription
          (st.executionPlan.get ⟨st.currentStep, h⟩).inputDependencies
          st.intermediateResults st.request) = Except.error e) :
    execute_current_step agents forward st
        = { st with error := "Step " ++ toString st.currentStep ++ " failed: " ++ e } ∧
      should_continue_execution (execute_current_step agents forward st) = "finish" := by
  have hexec : execute_current_step agents forward st
      = { st with error := "Step " ++ toString st.currentStep ++ " failed: " ++ e } := by
    unfold execute_current_step
    rw [dif_pos h]
    dsimp only
    rw [hcard]
    dsimp only
    rw [hfail]
  refine ⟨hexec, ?_⟩
  rw [hexec]
  unfold should_continue_execution
  rw [if_pos]
  exact step_error_ne_empty st.currentStep e

/-- A step of the concrete two-step demonstration plan. -/
def stepA : PlanStep :=
  { stepId := "step_0", agentId := "A", taskDescription := "t0",
    inputDependencies := [], outputKey := "step_0_output" }

/-- The second step of the concrete two-step demonstration plan. -/
def stepB : PlanStep :=
  { stepId := "step_1", agentId := "B", taskDescription := "t1",
    inputDependencies := ["step_0_output"], outputKey := "step_1_output" }

/-- The first demonstration agent. -/
def cardUA : AgentCard := { name := "A", description := "", url := "uA", skills := [] }

/-- The second demonstration agent. -/
def cardUB : AgentCard := { name := "B", description := "", url := "uB", skills := [] }

/-- The demonstration registry. -/
def agentsUAB : Registry := [("A", cardUA), ("B", cardUB)]

/-- The initial execution state over the demonstration plan. -/
def stInit : MultiAgentState :=
  { request := "r", executionPlan := [stepA, stepB], currentStep := 0,
    intermediateResults := [], error := "", metadata := [] }

/-- C10 witness: the frame theorem applied to the concrete initial state
and an endpoint that raises. -/
theorem execute_step_failure_frame_witness :
    execute_current_step agentsUAB (fun _ _ => Except.error "boom") stInit
        = { stInit with error := "Step " ++ toString stInit.currentStep ++ " failed: " ++ "boom" } ∧
      should_continue_execution
          (execute_current_step agentsUAB (fun _ _ => Except.error "boom") stInit)
        = "finish" :=
  execute_step_failure_frame agentsUAB (fun _ _ => Except.error "boom") stInit
    (by decide) cardUA (by decide) "boom" rfl

/-! ## C3: abort semantics of multi-step execution -/

/-- A transport in which the first endpoint answers but its task times
out during polling, while the second endpoint answers normally. -/
def timeoutForward : String → String → Except String String :=
  fun u _ =>
    if u = "uA" then forwardPollOutcome (fun _ => PollReply.noResult) else Except.ok "r1"

/-- C3 counterexample: when step 0 times out during completion polling,
the loop does not abort: the timeout message is stored as the step 0
result, no error is recorded, and step 1 is still executed (both ticks
appear in the call trace).  Only raised transport errors abort the
plan; a poll timeout is returned as a normal result. -/
theorem plan_timeout_continues_counterexample :
    (runPlan agentsUAB timeoutForward stInit).2 = [0, 1] ∧
      (runPlan agentsUAB timeoutForward stInit).1.error = "" ∧
      (runPlan agentsUAB timeoutForward stInit).1.currentStep = 2 ∧
      alookup (runPlan agentsUAB timeoutForward stInit).1.intermediateResults "step_0_output"
        = some "Task did not complete within timeout" := by
  refine ⟨by decide, by decide, by decide, by decide⟩

/-- A state that is not told to continue is returned unchanged with an
empty call trace, for any fuel. -/
theorem runPlanAux_finish (agents : Registry)
    (forward : String → String → Except String String) (st : MultiAgentState)
    (h : should_continue_execution st ≠ "continue") :
    ∀ fuel, runPlanAux agents forward fuel st = (st, [])
  | 0 => rfl
  | fuel + 1 => by rw [runPlanAux, if_neg h]

/-- Python dict assignment with a fresh key appends. -/
theorem dictInsertStr_fresh : ∀ (l : List (String × String)) (k v : String),
    k ∉ l.map Prod.fst → dictInsertStr l k v = l ++ [(k, v)] := by
  intro l k v h
  induction l with
  | nil => rfl
  | cons p rest ih =>
    rcases p with ⟨k0, v0⟩
    simp only [List.map_cons, List.mem_cons] at h
    push_neg at h
    rw [dictInsertStr, if_neg (fun he => h.1 he.symm), ih h.2]
    rfl

/-- Distinct plan positions carry distinct output keys when the key list
has no duplicates. -/
theorem plan_keys_ne (plan : List PlanStep)
    (hkeys : (plan.map (fun s => s.outputKey)).Nodup)
    (i j : Nat) (hi : i < plan.length) (hj : j < plan.length) (hij : i ≠ j) :
    (plan.get ⟨i, hi⟩).outputKey ≠ (plan.get ⟨j, hj⟩).outputKey := by
  intro he
  have hi' : i < (plan.map (fun s => s.outputKey)).length := by simpa using hi
  have hj' : j < (plan.map (fun s => s.outputKey)).length := by simpa using hj
  have hget : (plan.map (fun s => s.outputKey)).get ⟨i, hi'⟩
      = (plan.map (fun s => s.outputKey)).get ⟨j, hj'⟩ := by
    rw [List.get_map, List.get_map]
    exact he
  have := (List.Nodup.get_inj_iff hkeys).mp hget
  exact hij (by simpa using this)

/-- The abort induction: from any clean state whose cursor is m steps
before the failing step k, the loop ticks exactly through steps cursor
to k, records a step-k error, and appends exactly the output keys of the
successful steps to the intermediate results. -/
theorem runPlanAux_abort (agents : Registry)
    (forward : String → String → Except String String)
    (plan : List PlanStep) (cards : Nat → AgentCard) (k : Nat)
    (hcards : ∀ i (hi : i < plan.length),
      alookup agents (plan.get ⟨i, hi⟩).agentId = some (cards i))
    (hok : ∀ i, i < k → ∀ task, ∃ r, forward (cards i).url task = Except.ok r)
    (hfail : ∀ task, ∃ e, forward (cards k).url task = Except.error e)
    (hkeys : (plan.map (fun s => s.outputKey)).Nodup)
    (hk : k < plan.length) :
    ∀ (m : Nat) (st : MultiAgentState) (fuel : Nat),
      st.executionPlan = plan → st.error = "" → st.currentStep + m = k →
      (∀ i (hi : i < plan.length), st.currentStep ≤ i →
        (plan.get ⟨i, hi⟩).outputKey ∉ st.intermediateResults.map Prod.fst) →
      m + 1 ≤ fuel →
      (runPlanAux agents forward fuel st).1.error ≠ "" ∧
        (runPlanAux agents forward fuel st).1.currentStep = k ∧
        (runPlanAux agents forward fuel st).2 = List.range' st.currentStep (m + 1) ∧
        ∃ vals : List String, vals.length = m ∧
          (runPlanAux agents forward fuel st).1.intermediateResults
            = st.intermediateResults ++
              ((((plan.drop st.currentStep).take m).map (fun s => s.outputKey)).zip vals) := by
  intro m
  induction m with
  | zero =>
    intro st fuel hplan herr hstep hfresh hfuel
    rcases st with ⟨req, eplan, c, ir, err, md⟩
    dsimp only at hplan herr hstep hfresh ⊢
    subst eplan
    subst herr
    have hck : c = k := by omega
    subst hck
    match fuel, hfuel with
    | f + 1, _ =>
      have hcont : should_continue_execution ⟨req, plan, c, ir, "", md⟩ = "continue" := by
        unfold should_continue_execution
        rw [if_neg (by simp), if_neg (by simp; omega)]
      rw [runPlanAux, if_pos hcont]
      obtain ⟨e, he⟩ := hfail
        (build_task_with_dependencies (plan.get ⟨c, hk⟩).taskDescription
          (plan.get ⟨c, hk⟩).inputDependencies ir req)
      have hexec : execute_current_step agents forward ⟨req, plan, c, ir, "", md⟩
          = ⟨req, plan, c, ir, "Step " ++ toString c ++ " failed: " ++ e, md⟩ := by
        unfold execute_current_step
        rw [dif_pos (show c < plan.length from hk)]
        dsimp only
        rw [hcards c hk]
        dsimp only
        rw [he]
      rw [hexec]
      dsimp only
      have hstop : should_continue_execution
          ⟨req, plan, c, ir, "Step " ++ toString c ++ " failed: " ++ e, md⟩ ≠ "continue" := by
        unfold should_continue_execution
        rw [if_pos (step_error_ne_empty c e)]
        simp
      rw [runPlanAux_finish agents forward _ hstop f]
      refine ⟨step_error_ne_empty c e, rfl, by rw [List.range'_one], ⟨[], rfl, by simp⟩⟩
  | succ m ih =>
    intro st fuel hplan herr hstep hfresh hfuel
    rcases st with ⟨req, eplan, c, ir, err, md⟩
    dsimp only at hplan herr hstep hfresh ⊢
    subst eplan
    subst herr
    have hck : c < k := by omega
    have hcl : c < plan.length := by omega
    match fuel, hfuel with
    | f + 1, hfuel =>
      have hcont : should_continue_execution ⟨req, plan, c, ir, "", md⟩ = "continue" := by
        unfold should_continue_execution
        rw [if_neg (by simp), if_neg (by simp; omega)]
      rw [runPlanAux, if_pos hcont]
      obtain ⟨r, hr⟩ := hok c hck
        (build_task_with_dependencies (plan.get ⟨c, hcl⟩).taskDescription
          (plan.get ⟨c, hcl⟩).inputDependencies ir req)
      have hexec : execute_current_step agents forward ⟨req, plan, c, ir, "", md⟩
          = ⟨req, plan, c + 1,
              dictInsertStr ir (plan.get ⟨c, hcl⟩).outputKey r, "",
              md ++ [(c, (cards c).name, (plan.get ⟨c, hcl⟩).taskDescription, r)]⟩ := by
        unfold execute_current_step
        rw [dif_pos (show c < plan.length from hcl)]
        dsimp only
        rw [hcards c hcl]
        dsimp only
        rw [hr]
      rw [hexec]
      dsimp only
      have hfreshc : (plan.get ⟨c, hcl⟩).outputKey ∉ ir.map Prod.fst :=
        hfresh c hcl (le_refl c)
      have hinsert : dictInsertStr ir (plan.get ⟨c, hcl⟩).outputKey r
          = ir ++ [((plan.get ⟨c, hcl⟩).outputKey, r)] :=
        dictInsertStr_fresh ir _ r hfreshc
      have hfresh' : ∀ i (hi : i < plan.length), c + 1 ≤ i →
          (plan.get ⟨i, hi⟩).outputKey ∉
            (dictInsertStr ir (plan.get ⟨c, hcl⟩).outputKey r).map Prod.fst := by
        intro i hi hci
        rw [hinsert, List.map_append, List.mem_append]
        rintro (hmem | hmem)
        · exact hfresh i hi (by omega) hmem
        · simp only [List.map_cons, List.map_nil, List.mem_singleton] at hmem
          exact plan_keys_ne plan hkeys i c hi hcl (by omega) hmem
      obtain ⟨herr', hcs', hcalls', vals', hvlen', hres'⟩ :=
        ih ⟨req, plan, c + 1,
            dictInsertStr ir (plan.get ⟨c, hcl⟩).outputKey r, "",
            md ++ [(c, (cards c).name, (plan.get ⟨c, hcl⟩).taskDescription, r)]⟩
          f rfl rfl (by dsimp only; omega) (by dsimp only; exact hfresh') (by omega)
      refine ⟨herr', hcs', ?_, ?_⟩
      · rw [hcalls']
        dsimp only
        rw [List.range'_succ, List.range'_succ, List.range'_succ]
      · refine ⟨r :: vals', by simp [hvlen'], ?_⟩
        rw [hres']
        dsimp only
        rw [hinsert]
        have hdrop : plan.drop c = plan.get ⟨c, hcl⟩ :: plan.drop (c + 1) :=
          List.drop_eq_get_cons hcl
        rw [hdrop, List.take_succ_cons, List.map_cons, List.zip_cons_cons,
          List.append_assoc]
        rfl

/-- C3 amended: when the remote call of step k raises a transport error
(the earlier endpoints returning normally), execution ticks exactly
through steps 0 to k (no later step is reached), records the error, and
the intermediate results afterwards hold exactly the output keys of the
k completed steps; a poll timeout or remote task failure, by contrast,
is returned as a normal textual result and does not abort the plan. -/
theorem plan_execution_abort (agents : Registry)
    (forward : String → String → Except String String)
    (request : String) (plan : List PlanStep) (cards : Nat → AgentCard) (k : Nat)
    (hk : k < plan.length)
    (hkeys : (plan.map (fun s => s.outputKey)).Nodup)
    (hcards : ∀ i (hi : i < plan.length),
      alookup agents (plan.get ⟨i, hi⟩).agentId = some (cards i))
    (hok : ∀ i, i < k → ∀ task, ∃ r, forward (cards i).url task = Except.ok r)
    (hfail : ∀ task, ∃ e, forward (cards k).url task = Except.error e) :
    (runPlan agents forward
        { request := request, executionPlan := plan, currentStep := 0,
          intermediateResults := [], error := "", metadata := [] }).2
        = List.range (k + 1) ∧
      (runPlan agents forward
          { request := request, executionPlan := plan, currentStep := 0,
            intermediateResults := [], error := "", metadata := [] }).1.error ≠ "" ∧
      (runPlan agents forward
          { request := request, executionPlan := plan, currentStep := 0,
            intermediateResults := [], error := "", metadata := [] }).1.currentStep = k ∧
      ∃ vals : List String, vals.length = k ∧
        (runPlan agents forward
            { request := request, executionPlan := plan, currentStep := 0,
              intermediateResults := [], error := "", metadata := [] }).1.intermediateResults
          = ((plan.take k).map (fun s => s.outputKey)).zip vals := by
  obtain ⟨herr, hcs, hcalls, vals, hvlen, hres⟩ :=
    runPlanAux_abort agents forward plan cards k hcards hok hfail hkeys hk k
      { request := request, executionPlan := plan, currentStep := 0,
        intermediateResults := [], error := "", metadata := [] }
      (plan.length + 1) rfl rfl (by dsimp only; omega)
      (by intro i hi _ hmem; simp at hmem) (by omega)
  refine ⟨?_, herr, hcs, vals, hvlen, ?_⟩
  · rw [List.range_eq_range']
    exact hcalls
  · rw [show (runPlan agents forward
        { request := request, executionPlan := plan, currentStep := 0,
          intermediateResults := [], error := "", metadata := [] }).1.intermediateResults
        = (runPlanAux agents forward (plan.length + 1)
            { request := request, executionPlan := plan, currentStep := 0,
              intermediateResults := [], error := "", metadata := [] }).1.intermediateResults
      from rfl, hres]
    simp only [List.nil_append, List.drop_zero]

/-- A transport in which the first endpoint succeeds and the second
raises. -/
def failSecondForward : String → String → Except String String :=
  fun u _ => if u = "uA" then Except.ok "r0" else Except.error "boom"

/-- The per-position agent cards of the demonstration plan. -/
def cardsUAB : Nat → AgentCard := fun i => if i = 0 then cardUA else cardUB

/-- C3 witness: the abort theorem applied to the concrete two-step plan
with the second endpoint raising; exactly ticks 0 and 1 run. -/
theorem plan_execution_abort_witness :
    (runPlan agentsUAB failSecondForward stInit).2 = List.range 2 :=
  (plan_execution_abort agentsUAB failSecondForward "r" [stepA, stepB] cardsUAB 1
      (by decide) (by decide)
      (by
        intro i hi
        rcases i with _ | i
        · rfl
        · rcases i with _ | i
          · rfl
          · simp at hi; omega)
      (by intro i hi task; interval_cases i; exact ⟨"r0", rfl⟩)
      (fun task => ⟨"boom", rfl⟩)).1
